import Mathlib

/-!
Verification development for the pytorch-openpose serving repository.

The post-processing pipeline of `src/body.py` (greedy limb matching and
multi-person assembly), the hand peak extractor of `src/hand.py`, the
detection orchestrator of `app/core/detection_service.py`, the video task
manager of `app/core/video_task_manager.py` and the ffmpeg writer of
`app/core/ffmpeg_utils.py` are shallowly embedded below.  Floating point
scores are modelled as exact rationals wherever the algorithm only adds,
compares and divides them; the pair scoring step of `body.py` computes a
Euclidean norm, so that part is modelled over the real numbers.
-/

/- ============================================================
   Part 1.  Body skeleton assembly (src/body.py, lines 188-243)
   ============================================================ -/

/-- One person record: a row of 20 numbers in the source
(`subset` rows).  The first 18 entries hold candidate ids or -1,
entry 18 (`row[-2]`) is the total score, entry 19 (`row[-1]`) the part
count.  We split the row into its three parts. -/
structure Person where
  slots : List ℚ
  score : ℚ
  count : ℚ
deriving DecidableEq, Repr

instance : Inhabited Person :=
  ⟨⟨List.replicate 18 (-1), 0, 0⟩⟩

/-- One accepted limb edge: a row of `connection_all[k]` in the source,
`[candA[i][3], candB[j][3], score_with_dist_prior, i, j]`. -/
structure Connection where
  aId : ℚ
  bId : ℚ
  score : ℚ
  i : ℕ
  j : ℕ
deriving DecidableEq, Repr

instance : Inhabited Connection := ⟨⟨0, 0, 0, 0, 0⟩⟩

/-- The scan over `subset` rows collecting every row index `j` with
`subset[j][indexA] == partAs[i] or subset[j][indexB] == partBs[i]`
(body.py lines 200-205).  The source stores the first two hits in
`subset_idx` and counts them in `found`. -/
def findMatches (subset : List Person) (indexA indexB : ℕ) (a b : ℚ) : List ℕ :=
  (List.range subset.length).filter fun j =>
    ((subset.getD j default).slots.getD indexA (-1) == a) ||
    ((subset.getD j default).slots.getD indexB (-1) == b)

/-- Extension of a person record by an accepted edge (body.py lines
209-212 and 222-224): slot `indexB` is set to the partB id, the part
count is incremented, and the edge score plus the partB candidate score
is added to the total score.  `candScore` maps a candidate id to its
confidence (`candidate[id, 2]`). -/
def extendPerson (candScore : ℚ → ℚ) (indexB : ℕ) (bId edgeScore : ℚ)
    (p : Person) : Person :=
  { slots := p.slots.set indexB bId
    score := p.score + candScore bId + edgeScore
    count := p.count + 1 }

/-- Merge of two person records (body.py lines 217-220):
slot arrays are added elementwise plus one (so -1 + id + 1 = id),
scores and counts are summed, and the edge score is added. -/
def mergePerson (edgeScore : ℚ) (p1 p2 : Person) : Person :=
  { slots := List.zipWith (fun a b => a + b + 1) p1.slots p2.slots
    score := p1.score + p2.score + edgeScore
    count := p1.count + p2.count }

/-- Disjointness test of the occupied slots of two records (body.py
lines 215-216): `membership` has no entry equal to 2, i.e. no index at
which both rows hold a value >= 0.  Computed over the 18 part slots
only, the two summary entries are excluded by construction. -/
def slotsDisjoint (s1 s2 : List ℚ) : Bool :=
  (s1.zip s2).all fun ab => !(decide (0 ≤ ab.1) && decide (0 ≤ ab.2))

/-- A fresh person record seeded from both endpoints of an edge
(body.py lines 228-232). -/
def seedPerson (candScore : ℚ → ℚ) (indexA indexB : ℕ) (c : Connection) : Person :=
  { slots := ((List.replicate 18 (-1 : ℚ)).set indexA c.aId).set indexB c.bId
    score := candScore c.aId + candScore c.bId + c.score
    count := 2 }

/-- Validity of a slot array: every entry is either the -1 placeholder
or a candidate id, which is nonnegative.  This invariant holds for all
rows the assembly loop ever creates. -/
def validSlots (s : List ℚ) : Bool :=
  s.all fun q => (q == -1) || decide (0 ≤ q)

/-- One step of the person assembly loop of body.py (lines 199-233) for
a single accepted edge of limb `k`.  Exactly one matching row extends
it (guarded by `subset[j][indexB] != partBs[i]`); exactly two matching
rows merge when slot-disjoint and otherwise extend the first row
unguarded; no matching row seeds a new record when `k < 17`.  Three or
more matching rows make the source raise an IndexError on
`subset_idx[found]`; the model leaves `subset` unchanged there, and no
theorem below depends on that case. -/
def assemblyStep (candScore : ℚ → ℚ) (k indexA indexB : ℕ) (c : Connection)
    (subset : List Person) : List Person :=
  match findMatches subset indexA indexB c.aId c.bId with
  | [j] =>
      let p := subset.getD j default
      if p.slots.getD indexB (-1) ≠ c.bId then
        subset.set j (extendPerson candScore indexB c.bId c.score p)
      else subset
  | [j1, j2] =>
      let p1 := subset.getD j1 default
      let p2 := subset.getD j2 default
      if slotsDisjoint p1.slots p2.slots then
        (subset.set j1 (mergePerson c.score p1 p2)).eraseIdx j2
      else
        subset.set j1 (extendPerson candScore indexB c.bId c.score p1)
  | [] => if k < 17 then subset ++ [seedPerson candScore indexA indexB c] else subset
  | _ => subset

/-- The fixed limb topology table `limbSeq` of body.py (1-based part
indices). -/
def limbSeq : List (ℕ × ℕ) :=
  [(2, 3), (2, 6), (3, 4), (4, 5), (6, 7), (7, 8), (2, 9), (9, 10),
   (10, 11), (2, 12), (12, 13), (13, 14), (2, 1), (1, 15), (15, 17),
   (1, 16), (16, 18), (3, 17), (6, 18)]

/-- The full assembly loop over all 19 limb sequences in table order
(body.py lines 193-233), starting from an empty `subset`.
`connectionAll` holds the accepted edges of each limb; a limb whose
part lists were empty contributes an empty list (the `special_k`
case). -/
def assembleSubset (candScore : ℚ → ℚ) (connectionAll : List (List Connection)) :
    List Person :=
  (List.range limbSeq.length).foldl
    (fun sub k =>
      let iA := (limbSeq.getD k default).1 - 1
      let iB := (limbSeq.getD k default).2 - 1
      (connectionAll.getD k []).foldl
        (fun s c => assemblyStep candScore k iA iB c s) sub)
    []

/-- Final filtering of person records (body.py lines 234-239): a row is
deleted when its part count is below 4 or its mean score is below
0.4. -/
def finalFilter (subset : List Person) : List Person :=
  subset.filter fun p =>
    !(decide (p.count < 4) || decide (p.score / p.count < mkRat 2 5))

/-- The complete person-record output of the body skeleton assembler:
assembly followed by the final quality filter (what body.py returns as
`subset`). -/
def bodyPostprocess (candScore : ℚ → ℚ) (connectionAll : List (List Connection)) :
    List Person :=
  finalFilter (assembleSubset candScore connectionAll)

/- ============================================================
   Part 2.  Greedy limb matching (src/body.py, lines 174-181)
   ============================================================ -/

/-- One body candidate peak `(x, y, score, id)` as stored in
`all_peaks` (body.py lines 121-129); coordinates are integer pixel
positions, `gid` the globally unique ascending id. -/
structure BPeak where
  x : ℤ
  y : ℤ
  score : ℚ
  gid : ℚ
deriving DecidableEq, Repr

instance : Inhabited BPeak := ⟨⟨0, 0, 0, 0⟩⟩

/-- One entry of `connection_candidate`
(`[i, j, score_with_dist_prior, score_with_dist_prior + scores]`,
body.py lines 170-172), generic in the score type. -/
structure LimbCandidate (α : Type) where
  i : ℕ
  j : ℕ
  score : α
  combined : α
deriving DecidableEq, Repr

/-- Building a `connection` row `[candA[i][3], candB[j][3], s, i, j]`
(body.py line 179) from a selected candidate. -/
def mkConnection (candA candB : List BPeak) (c : LimbCandidate ℚ) : Connection :=
  ⟨(candA.getD c.i default).gid, (candB.getD c.j default).gid, c.score, c.i, c.j⟩

/-- Sorting of the candidate list by descending
`score_with_dist_prior` (body.py line 174). -/
def sortCandidates (l : List (LimbCandidate ℚ)) : List (LimbCandidate ℚ) :=
  l.mergeSort fun a b => decide (b.score ≤ a.score)

/-- The greedy selection loop of body.py lines 176-181: walk the sorted
candidates, accept one whenever neither its `i` nor its `j` is already
used by an accepted row, and stop as soon as `cap = min(nA, nB)` rows
are accepted. -/
def greedyPick (candA candB : List BPeak) (cap : ℕ) :
    List (LimbCandidate ℚ) → List Connection → List Connection
  | [], acc => acc
  | c :: rest, acc =>
      if acc.all (fun r => r.i ≠ c.i) && acc.all (fun r => r.j ≠ c.j) then
        let acc2 := acc ++ [mkConnection candA candB c]
        if cap ≤ acc2.length then acc2
        else greedyPick candA candB cap rest acc2
      else greedyPick candA candB cap rest acc

/-- One limb sequence pass of greedy matching (body.py lines 174-181):
sort the accepted candidates by descending score, then greedily select
up to `min(|candA|, |candB|)` one-to-one rows. -/
def limbConnections (candA candB : List BPeak) (cands : List (LimbCandidate ℚ)) :
    List Connection :=
  greedyPick candA candB (min candA.length candB.length) (sortCandidates cands) []

/- ============================================================
   Part 3.  Pair scoring (src/body.py, lines 153-172)
   ============================================================ -/

/-- Round to nearest integer, ties to even: the semantics of
`torch.round`, applied to the sample coordinates in body.py lines
162-163. -/
def roundHalfEven (q : ℚ) : ℤ :=
  if q - ⌊q⌋ < mkRat 1 2 then ⌊q⌋
  else if mkRat 1 2 < q - ⌊q⌋ then ⌊q⌋ + 1
  else if ⌊q⌋ % 2 = 0 then ⌊q⌋ else ⌊q⌋ + 1

/-- `torch.linspace a b n`: n points from a to b inclusive
(body.py lines 160-161). -/
def linspace (a b : ℚ) (n : ℕ) : List ℚ :=
  (List.range n).map fun t : ℕ => a + (b - a) * (t : ℚ) / ((n : ℚ) - 1)

/-- The two PAF channels of one limb (`score_mid[:, :, 0]` and
`score_mid[:, :, 1]`), sampled at integer pixel positions, indexed as
`[y, x]` like the source arrays. -/
structure PafSlice where
  px : ℤ → ℤ → ℚ
  py : ℤ → ℤ → ℚ

/-- The 10 rounded sample positions `(x, y)` along the segment from A
to B (body.py lines 160-163). -/
def sampleCoords (A B : ℤ × ℤ) : List (ℤ × ℤ) :=
  ((linspace A.1 B.1 10).zip (linspace A.2 B.2 10)).map fun p =>
    (roundHalfEven p.1, roundHalfEven p.2)

/-- The clamped segment length `norm = max(0.001, hypot(vec))`
(body.py lines 156-157). -/
noncomputable def pairNorm (A B : ℤ × ℤ) : ℝ :=
  max (1 / 1000)
    (Real.sqrt (((B.1 - A.1 : ℤ) : ℝ) ^ 2 + ((B.2 - A.2 : ℤ) : ℝ) ^ 2))

/-- One projected PAF sample
`paf_x * vec_unit[0] + paf_y * vec_unit[1]` (body.py line 166). -/
noncomputable def scoreMidpt (paf : PafSlice) (A B : ℤ × ℤ) (c : ℤ × ℤ) : ℝ :=
  (paf.px c.2 c.1 : ℝ) * (((B.1 - A.1 : ℤ) : ℝ) / pairNorm A B) +
  (paf.py c.2 c.1 : ℝ) * (((B.2 - A.2 : ℤ) : ℝ) / pairNorm A B)

open Classical in
/-- The number of the 10 samples whose projected score exceeds
`thre2 = 0.05` (the sum in body.py line 168). -/
noncomputable def numPassing (paf : PafSlice) (A B : ℤ × ℤ) : ℕ :=
  ((sampleCoords A B).map (scoreMidpt paf A B)).countP fun s => decide ((5 / 100 : ℝ) < s)

/-- `score_with_dist_prior`: mean projected score plus the
nonpositive long-segment penalty (body.py line 167);
`H = oriImg.shape[0]` is the image height. -/
noncomputable def scoreWithDistPrior (paf : PafSlice) (A B : ℤ × ℤ) (H : ℕ) : ℝ :=
  ((sampleCoords A B).map (scoreMidpt paf A B)).sum / 10 +
    min ((1 / 2 : ℝ) * H / pairNorm A B - 1) 0

/-- The acceptance test of body.py lines 168-170:
`criterion1` is `(score_midpts > thre2).sum() > 0.8 * 10` and
`criterion2` is `score_with_dist_prior > 0`. -/
def pairAccepted (paf : PafSlice) (A B : ℤ × ℤ) (H : ℕ) : Prop :=
  ((8 / 10 : ℝ) * 10 < (numPassing paf A B : ℝ)) ∧ 0 < scoreWithDistPrior paf A B H

/-- The pixel position of a body candidate peak, as fed to the PAF
sampler. -/
def peakPos (p : BPeak) : ℤ × ℤ :=
  (p.x, p.y)

open Classical in
/-- The `connection_candidate` list for one limb (body.py lines
153-172): every pair `(i, j)` of peaks that passes both criteria, with
its prior score and its combined score. -/
noncomputable def connectionCandidates (paf : PafSlice) (candA candB : List BPeak)
    (H : ℕ) : List (LimbCandidate ℝ) :=
  (List.range candA.length).flatMap fun i =>
    (List.range candB.length).filterMap fun j =>
      if pairAccepted paf (peakPos (candA.getD i default))
          (peakPos (candB.getD j default)) H then
        some ⟨i, j,
          scoreWithDistPrior paf (peakPos (candA.getD i default))
            (peakPos (candB.getD j default)) H,
          scoreWithDistPrior paf (peakPos (candA.getD i default))
            (peakPos (candB.getD j default)) H +
            ((candA.getD i default).score : ℝ) +
            ((candB.getD j default).score : ℝ)⟩
      else none

/- ============================================================
   Part 4.  Hand peak extraction (src/hand.py, lines 104-116)
   ============================================================ -/

/-- All values of one smoothed heatmap channel, stored as rows indexed
`[y][x]` like the source tensor. -/
def flatVals (m : List (List ℚ)) : List ℚ :=
  m.flatMap fun r => r

/-- The channel maximum `part_map.max()` (hand.py line 109). -/
def matMax (m : List (List ℚ)) : ℚ :=
  (flatVals m).max?.getD 0

/-- Peak output for one hand channel (hand.py lines 108-115): the
placeholder `[0, 0]` when the smoothed maximum does not exceed
`thre = 0.05`, otherwise the `[x, y]` of the first position attaining
the maximum (`torch.nonzero(...)[0]` in row-major order). -/
def handPeakOf (m : List (List ℚ)) : ℤ × ℤ :=
  let mv := matMax m
  if mv ≤ mkRat 1 20 then (0, 0)
  else
    let y := m.findIdx fun row => row.any fun q => q == mv
    let x := (m.getD y []).findIdx fun q => q == mv
    ((x : ℤ), (y : ℤ))

/-- The full 21-channel hand extractor output (hand.py lines 106-116). -/
def handAllPeaks (channels : List (List (List ℚ))) : List (ℤ × ℤ) :=
  channels.map handPeakOf

/- ============================================================
   Part 5.  Detection orchestrator
   (app/core/detection_service.py, lines 90-232)
   ============================================================ -/

/-- A hand region proposal `(x, y, w, is_left)` from
`util.handDetect`. -/
structure HandRegion where
  x : ℤ
  y : ℤ
  w : ℤ
  isLeft : Bool
deriving DecidableEq, Repr

/-- The coordinate mapping of hand peaks back to full-image
coordinates (detection_service.py lines 173-174 and video_service.py
lines 173-174): `np.where(col == 0, col, col + offset)` applied to
each coordinate column independently. -/
def mapHandPeaks (x0 y0 : ℤ) (peaks : List (ℤ × ℤ)) : List (ℤ × ℤ) :=
  peaks.map fun p =>
    (if p.1 = 0 then p.1 else p.1 + x0, if p.2 = 0 then p.2 else p.2 + y0)

/-- Modelled from the spec: the transform the specification describes,
namely re-adding the region offset to BOTH coordinates of every peak
that is not the placeholder `(0, 0)`, and leaving `(0, 0)` unchanged.
Stated for comparison with `mapHandPeaks` above. -/
def mapHandPeaksSpec (x0 y0 : ℤ) (peaks : List (ℤ × ℤ)) : List (ℤ × ℤ) :=
  peaks.map fun p => if p = (0, 0) then p else (p.1 + x0, p.2 + y0)

/-- The body detection output pair `(candidate, subset)` as plain
nested lists, the shape `detect_pose` stores in its result. -/
abbrev BodyOut : Type := List (List ℚ) × List (List ℚ)

/-- One entry of `hands_data`. -/
structure HandEntry where
  peaks : List (ℤ × ℤ)
  region : HandRegion
deriving DecidableEq, Repr

/-- The external effects `detect_pose` runs, given as oracles: the
body model call, the hand region proposer, the hand model call per
region, the two drawing passes (each may raise, modelled as `Except`),
and the measured elapsed time. -/
structure DetectOracles where
  bodyResult : Except String BodyOut
  handRegions : BodyOut → List HandRegion
  handPeaksAt : HandRegion → Except String (List (ℤ × ℤ))
  drawBody : Except String Unit
  drawHands : Except String Unit
  elapsed : ℚ

/-- The per-region hand loop of detect_pose (detection_service.py
lines 164-184): each region is cropped and estimated; a region whose
estimation raises is skipped by the inner `try/except ... continue`;
surviving peaks are mapped back to full-image coordinates. -/
def runHandDetection (o : DetectOracles) (bs : BodyOut) : List HandEntry :=
  (o.handRegions bs).filterMap fun r =>
    match o.handPeaksAt r with
    | Except.ok pk => some ⟨mapHandPeaks r.x r.y pk, r⟩
    | Except.error _ => none

/-- The structured detection data of a successful call. -/
structure DetectionData where
  body : Option BodyOut
  hands : Option (List HandEntry)
deriving DecidableEq

/-- The body of the `try` block of detect_pose (detection_service.py
lines 111-222): body detection (with optional drawing), then the hand
loop (only when body ran and produced output), then hand drawing.  Any
raised exception propagates as `Except.error`. -/
def detectPoseBody (o : DetectOracles) (includeBody includeHands drawResult : Bool) :
    Except String DetectionData := do
  let bodyOut ←
    if includeBody then do
      let bs ← o.bodyResult
      if drawResult then do
        o.drawBody
      pure (some bs)
    else pure none
  match bodyOut with
  | none => pure ⟨none, none⟩
  | some bs =>
      if includeHands then do
        let hd := runHandDetection o bs
        if drawResult then do
          o.drawHands
        pure ⟨some bs, some hd⟩
      else pure ⟨some bs, none⟩

/-- The result object detect_pose returns to its caller. -/
structure DetectResult where
  success : Bool
  errorMsg : Option String
  results : Option DetectionData
  processingTime : ℚ
deriving DecidableEq

/-- detect_pose (detection_service.py lines 90-232): run the body, and
on any exception return a failure result carrying the message instead
of raising. The function is total: no exception escapes. -/
def detect_pose (o : DetectOracles) (includeBody includeHands drawResult : Bool) :
    DetectResult :=
  match detectPoseBody o includeBody includeHands drawResult with
  | Except.ok d => ⟨true, none, some d, o.elapsed⟩
  | Except.error e => ⟨false, some e, none, o.elapsed⟩

/- ============================================================
   Part 6.  Video task cleanup
   (app/core/video_task_manager.py, lines 272-285)
   ============================================================ -/

/-- Task lifecycle states of `VideoTaskStatus`. -/
inductive TaskStatus
  | pending
  | processing
  | completed
  | failed
deriving DecidableEq, Repr

/-- A video task record; only the fields `cleanup_old_tasks` touches
are modelled.  Output files are named by natural numbers. -/
structure VTask where
  taskId : ℕ
  status : TaskStatus
  startTime : Option ℚ
  outputFile : ℕ
deriving DecidableEq, Repr

/-- The age test of `cleanup_old_tasks`
(`task.start_time and (current_time - task.start_time) > max_age_hours * 3600`).
Python truthiness makes a missing or zero start time fail the test. -/
def taskExpired (now maxAgeHours : ℚ) (t : VTask) : Bool :=
  match t.startTime with
  | none => false
  | some s => !(s == 0) && decide (maxAgeHours * 3600 < now - s)

/-- cleanup_old_tasks (video_task_manager.py lines 272-285): collect
every expired task, delete its output file when present, drop the
records, and return how many were removed.  The task table and the
file system are passed and returned explicitly. -/
def cleanup_old_tasks (now maxAgeHours : ℚ) (tasks : List VTask) (files : List ℕ) :
    ℕ × List VTask × List ℕ :=
  let toRemove := tasks.filter (taskExpired now maxAgeHours)
  (toRemove.length,
   tasks.filter fun t => !(taskExpired now maxAgeHours t),
   files.filter fun f => !(toRemove.any fun t => t.outputFile == f))

/- ============================================================
   Part 7.  FFmpeg writer frame-size negotiation
   (app/core/ffmpeg_utils.py, lines 53-157)
   ============================================================ -/

/-- Rounding a dimension up to the next even value
(ffmpeg_utils.py lines 72-75: `if width % 2 != 0: width += 1`). -/
def adjustEven (n : ℕ) : ℕ :=
  if n % 2 = 0 then n else n + 1

/-- The writer state after `_create_ffmpeg_process`: the negotiated
frame size `(height, width)` stored back into `input_framesize`
(line 103), plus the liveness flags `write_frame` checks. -/
structure FFWriter where
  framesize : ℕ × ℕ
  closed : Bool
  procAlive : Bool
deriving DecidableEq, Repr

/-- Construction of an `FFmpegWriter` for frames of size
`(h, w)` = (height, width): both dimensions are forced even and the
result is stored as the negotiated frame size. -/
def createFFmpegWriter (h w : ℕ) : FFWriter :=
  ⟨(adjustEven h, adjustEven w), false, true⟩

/-- write_frame (ffmpeg_utils.py lines 108-157) up to the point where
the raw bytes are piped: the checks run in source order (writer
closed, process dead, empty frame, frame size mismatch against the
stored negotiated size); a frame passing all checks is written. -/
def write_frame (wr : FFWriter) (frame : Option (ℕ × ℕ)) : Except String Unit :=
  if wr.closed then Except.error "writer closed"
  else if !wr.procAlive then Except.error "ffmpeg process terminated"
  else
    match frame with
    | none => Except.error "empty frame"
    | some (fh, fw) =>
        if fh ≠ wr.framesize.1 ∨ fw ≠ wr.framesize.2 then
          Except.error "frame size mismatch"
        else Except.ok ()

/- ============================================================
   Part 8.  Properties under verification and concrete fixtures
   ============================================================ -/

/-- The quality floor of the final output (claim C1): every surviving
record has at least 4 parts and mean score at least 0.4, and every
violating record is absent from the output. -/
def QualityFloorHolds (candScore : ℚ → ℚ) (connectionAll : List (List Connection)) : Prop :=
  (∀ p ∈ bodyPostprocess candScore connectionAll,
      4 ≤ p.count ∧ mkRat 2 5 ≤ p.score / p.count) ∧
  (∀ p : Person, p.count < 4 ∨ p.score / p.count < mkRat 2 5 →
      p ∉ bodyPostprocess candScore connectionAll)

/-- Behaviour of the two-match branch of the assembly step (claim C2):
non-disjoint records leave the second record alone and extend the
first, disjoint records are merged, and each merged part slot is
exactly the occupied one of the two sources. -/
def MergeBranchSound (candScore : ℚ → ℚ) (k indexA indexB : ℕ) (c : Connection)
    (subset : List Person) (j1 j2 : ℕ) : Prop :=
  (slotsDisjoint (subset.getD j1 default).slots (subset.getD j2 default).slots = false →
     assemblyStep candScore k indexA indexB c subset =
       subset.set j1 (extendPerson candScore indexB c.bId c.score (subset.getD j1 default))) ∧
  (slotsDisjoint (subset.getD j1 default).slots (subset.getD j2 default).slots = true →
     assemblyStep candScore k indexA indexB c subset =
       (subset.set j1
         (mergePerson c.score (subset.getD j1 default) (subset.getD j2 default))).eraseIdx j2 ∧
     ∀ idx : ℕ, idx < 18 →
       (mergePerson c.score (subset.getD j1 default) (subset.getD j2 default)).slots.getD idx (-1) =
         if 0 ≤ (subset.getD j1 default).slots.getD idx (-1) then
           (subset.getD j1 default).slots.getD idx (-1)
         else (subset.getD j2 default).slots.getD idx (-1))

/-- Behaviour of the one-match branch of the assembly step (claim C5,
as the code implements it): the matched record is extended exactly when
its partB slot does not already hold the partB id of the edge;
otherwise nothing changes. -/
def SingleMatchStep (candScore : ℚ → ℚ) (k indexA indexB : ℕ) (c : Connection)
    (subset : List Person) (j : ℕ) : Prop :=
  ((subset.getD j default).slots.getD indexB (-1) ≠ c.bId →
     assemblyStep candScore k indexA indexB c subset =
       subset.set j (extendPerson candScore indexB c.bId c.score (subset.getD j default))) ∧
  ((subset.getD j default).slots.getD indexB (-1) = c.bId →
     assemblyStep candScore k indexA indexB c subset = subset)

/-- The guarantees of one limb sequence pass of greedy matching
(claim C3): selected edges are pairwise distinct in both local indices
and both global peak ids, scores are weakly descending, and at most
`min(|candA|, |candB|)` edges are selected. -/
def OneToOneMatching (candA candB : List BPeak) (cands : List (LimbCandidate ℚ)) : Prop :=
  (limbConnections candA candB cands).Pairwise
    (fun r s => r.i ≠ s.i ∧ r.j ≠ s.j ∧ r.aId ≠ s.aId ∧ r.bId ≠ s.bId) ∧
  (limbConnections candA candB cands).Pairwise (fun r s => s.score ≤ r.score) ∧
  (limbConnections candA candB cands).length ≤ min candA.length candB.length

/-- The per-channel hand peak contract (claim C6): a channel whose
smoothed maximum does not exceed 0.05 yields the placeholder, and a
channel with a unique global maximum above 0.05 yields its
coordinate. -/
def HandPeakCorrect (m : List (List ℚ)) (y x : ℕ) : Prop :=
  (matMax m ≤ mkRat 1 20 → handPeakOf m = (0, 0)) ∧
  (mkRat 1 20 < matMax m →
    y < m.length →
    x < (m.getD y []).length →
    (m.getD y []).getD x 0 = matMax m →
    (∀ y2, y2 < m.length → ∀ x2, x2 < (m.getD y2 []).length →
        (m.getD y2 []).getD x2 0 = matMax m → y2 = y ∧ x2 = x) →
    handPeakOf m = ((x : ℤ), (y : ℤ)))

/-- Totality of detect_pose (claim C7): the call always returns a
result object; a raised internal exception is converted into a failed
result carrying the message, a normal run yields a successful result
with the detection data and the elapsed time. -/
def OrchestratorTotal (o : DetectOracles) (ib ih dr : Bool) : Prop :=
  (∃ d, detectPoseBody o ib ih dr = Except.ok d ∧
      detect_pose o ib ih dr = ⟨true, none, some d, o.elapsed⟩) ∨
  (∃ e, detectPoseBody o ib ih dr = Except.error e ∧
      detect_pose o ib ih dr = ⟨false, some e, none, o.elapsed⟩)

/-- The cleanup contract (claim C9): every over-age task is removed
together with its output file, every other task survives untouched,
and the returned counter is the number of removed records. -/
def CleanupCorrect (now maxAgeHours : ℚ) (tasks : List VTask) (files : List ℕ) : Prop :=
  (∀ t ∈ tasks, ∀ s : ℚ, t.startTime = some s → maxAgeHours * 3600 < now - s →
      t ∉ (cleanup_old_tasks now maxAgeHours tasks files).2.1 ∧
      t.outputFile ∉ (cleanup_old_tasks now maxAgeHours tasks files).2.2) ∧
  (∀ t ∈ tasks, (∀ s : ℚ, t.startTime = some s → ¬(maxAgeHours * 3600 < now - s)) →
      t ∈ (cleanup_old_tasks now maxAgeHours tasks files).2.1) ∧
  (cleanup_old_tasks now maxAgeHours tasks files).1 +
      (cleanup_old_tasks now maxAgeHours tasks files).2.1.length = tasks.length

/-- The per-coordinate offset law of the hand peak mapping (claim C8,
as the code implements it): each coordinate is shifted independently,
zero coordinates stay zero. -/
def OffsetPerCoordinate (x0 y0 : ℤ) (peaks : List (ℤ × ℤ)) (i : ℕ) : Prop :=
  (peaks.getD i (0, 0) = (0, 0) →
      (mapHandPeaks x0 y0 peaks).getD i (0, 0) = (0, 0)) ∧
  ((peaks.getD i (0, 0)).1 ≠ 0 →
      ((mapHandPeaks x0 y0 peaks).getD i (0, 0)).1 = (peaks.getD i (0, 0)).1 + x0) ∧
  ((peaks.getD i (0, 0)).1 = 0 →
      ((mapHandPeaks x0 y0 peaks).getD i (0, 0)).1 = 0) ∧
  ((peaks.getD i (0, 0)).2 ≠ 0 →
      ((mapHandPeaks x0 y0 peaks).getD i (0, 0)).2 = (peaks.getD i (0, 0)).2 + y0) ∧
  ((peaks.getD i (0, 0)).2 = 0 →
      ((mapHandPeaks x0 y0 peaks).getD i (0, 0)).2 = 0)

/-- The odd-dimension contract of the ffmpeg writer (claim C10). -/
def OddSizeRejected (h w : ℕ) : Prop :=
  (createFFmpegWriter h w).framesize ≠ (h, w) ∧
  (h % 2 = 1 → (createFFmpegWriter h w).framesize.1 = h + 1) ∧
  (w % 2 = 1 → (createFFmpegWriter h w).framesize.2 = w + 1) ∧
  ∃ e, write_frame (createFFmpegWriter h w) (some (h, w)) = Except.error e

/-- A concrete PAF slice for the pair-acceptance analysis: the x
channel vanishes, the y channel is 0.06 on the first eight sample rows
and 0.04 on the remaining two. -/
def pafCex : PafSlice :=
  ⟨fun _ _ => 0, fun yy _ => if yy ≤ 7 then mkRat 3 50 else mkRat 1 25⟩

/- ============================================================
   Helper lemmas
   ============================================================ -/

theorem filter_length_split {α : Type} (p : α → Bool) (l : List α) :
    (l.filter p).length + (l.filter fun a => !(p a)).length = l.length := by
  induction l with
  | nil => rfl
  | cons a l ih =>
      by_cases h : p a = true
      · simp only [List.filter_cons, h, Bool.not_true, List.length_cons]
        simpa using by omega
      · rw [Bool.not_eq_true] at h
        simp only [List.filter_cons, h, Bool.not_false, List.length_cons]
        simpa using by omega

theorem adjustEven_odd (n : ℕ) (hn : n % 2 = 1) : adjustEven n = n + 1 := by
  simp [adjustEven, hn]

theorem write_frame_mismatch (wr : FFWriter) (fh fw : ℕ) (hcl : wr.closed = false)
    (hpr : wr.procAlive = true)
    (hne : fh ≠ wr.framesize.1 ∨ fw ≠ wr.framesize.2) :
    write_frame wr (some (fh, fw)) = Except.error "frame size mismatch" := by
  rw [write_frame]
  simp only [hcl, hpr, Bool.not_true, Bool.false_eq_true, if_false]
  rw [if_pos hne]

/- ============================================================
   Claim C1
   ============================================================ -/

/-- C1: every person record in the final output of the body skeleton
assembler has part count at least 4 and mean score at least 0.4, and
any record violating either bound is removed before the output is
returned. -/
theorem C1_final_filter_quality (candScore : ℚ → ℚ)
    (connectionAll : List (List Connection)) :
    QualityFloorHolds candScore connectionAll := by
  unfold QualityFloorHolds
  constructor
  · intro p hp
    rw [bodyPostprocess, finalFilter, List.mem_filter] at hp
    have hc := hp.2
    simp only [Bool.not_eq_true', Bool.or_eq_false_iff, decide_eq_false_iff_not,
      not_lt] at hc
    exact hc
  · intro p hviol hp
    rw [bodyPostprocess, finalFilter, List.mem_filter] at hp
    have hc := hp.2
    simp only [Bool.not_eq_true', Bool.or_eq_false_iff, decide_eq_false_iff_not,
      not_lt] at hc
    rcases hviol with h | h
    · exact absurd h (not_lt.mpr hc.1)
    · exact absurd h (not_lt.mpr hc.2)

/-- C1 witness: applied to the empty connection table. -/
theorem C1_final_filter_quality_witness :
    QualityFloorHolds (fun _ => 0) [] :=
  C1_final_filter_quality (fun _ => 0) []

/- ============================================================
   Claim C7
   ============================================================ -/

/-- C7: detect_pose is a total function of its inputs; an exception in
the detection body yields a failure result carrying the caught
message, and a normal run yields a success result with the detection
data and the processing time. -/
theorem C7_detect_pose_never_raises (o : DetectOracles) (ib ih dr : Bool) :
    OrchestratorTotal o ib ih dr := by
  unfold OrchestratorTotal
  cases hb : detectPoseBody o ib ih dr with
  | ok d => exact Or.inl ⟨d, rfl, by simp [detect_pose, hb]⟩
  | error e => exact Or.inr ⟨e, rfl, by simp [detect_pose, hb]⟩

/-- C7 witness: a concrete oracle whose body model raises. -/
theorem C7_detect_pose_never_raises_witness :
    OrchestratorTotal
      ⟨Except.error "CUDA out of memory", fun _ => [], fun _ => Except.ok [],
       Except.ok (), Except.ok (), 1⟩ true true true :=
  C7_detect_pose_never_raises _ true true true

/- ============================================================
   Claim C8
   ============================================================ -/

/-- C8 counterexample: the peak (0, 5) is not the placeholder (0, 0),
yet the code maps it with offset (3, 4) to (0, 9) and not to (3, 9) as
the claimed both-coordinate offset would demand, because each
coordinate is tested against zero independently. -/
theorem C8_offset_counterexample :
    mapHandPeaks 3 4 [((0 : ℤ), (5 : ℤ))] = [((0 : ℤ), (9 : ℤ))] ∧
    mapHandPeaksSpec 3 4 [((0 : ℤ), (5 : ℤ))] = [((3 : ℤ), (9 : ℤ))] ∧
    ((0 : ℤ), (5 : ℤ)) ≠ ((0 : ℤ), (0 : ℤ)) := by
  refine ⟨by decide, ?_, by decide⟩
  simp [mapHandPeaksSpec]

/-- C8 amended: hand peaks are mapped back to full-image coordinates
per coordinate: a zero coordinate is kept at zero and a nonzero
coordinate is shifted by the corresponding region offset; in
particular the placeholder (0, 0) stays (0, 0). -/
theorem C8_offset_per_coordinate (x0 y0 : ℤ) (peaks : List (ℤ × ℤ)) (i : ℕ)
    (hi : i < peaks.length) :
    OffsetPerCoordinate x0 y0 peaks i := by
  unfold OffsetPerCoordinate
  have h2 : i < (mapHandPeaks x0 y0 peaks).length := by
    simpa [mapHandPeaks] using hi
  rw [List.getD_eq_getElem _ _ hi, List.getD_eq_getElem _ _ h2]
  simp only [mapHandPeaks, List.getElem_map]
  refine ⟨?_, ?_, ?_, ?_, ?_⟩ <;> intro hp <;> simp [hp]

/-- C8 witness: the placeholder and a fully nonzero peak at a concrete
offset. -/
theorem C8_offset_per_coordinate_witness :
    OffsetPerCoordinate 3 4 [((2 : ℤ), (5 : ℤ))] 0 :=
  C8_offset_per_coordinate 3 4 [((2 : ℤ), (5 : ℤ))] 0 (by decide)

/- ============================================================
   Claim C9
   ============================================================ -/

/-- C9: cleanup_old_tasks removes every task whose age (now minus its
start time) exceeds the threshold, regardless of status, deleting its
output file, keeps all other tasks, and returns the number of removed
records.  Start times are positive, as produced by the system
clock. -/
theorem C9_cleanup_old_tasks (now maxAgeHours : ℚ) (tasks : List VTask)
    (files : List ℕ)
    (hpos : tasks.all (fun t => t.startTime.all fun s => decide (0 < s)) = true) :
    CleanupCorrect now maxAgeHours tasks files := by
  unfold CleanupCorrect cleanup_old_tasks
  refine ⟨?_, ?_, ?_⟩
  · intro t ht s hs hold
    have hposs : (0 : ℚ) < s := by
      have h3 := List.all_eq_true.mp hpos t ht
      rw [hs] at h3
      simpa using h3
    have hexp : taskExpired now maxAgeHours t = true := by
      rw [taskExpired, hs]
      simp only [Bool.and_eq_true, Bool.not_eq_true', beq_eq_false_iff_ne,
        decide_eq_true_eq]
      exact ⟨ne_of_gt hposs, hold⟩
    constructor
    · intro hmem
      rw [List.mem_filter] at hmem
      have h4 := hmem.2
      rw [hexp] at h4
      simp at h4
    · intro hmem
      rw [List.mem_filter] at hmem
      have hany : (tasks.filter (taskExpired now maxAgeHours)).any
          (fun t2 => t2.outputFile == t.outputFile) = true := by
        rw [List.any_eq_true]
        exact ⟨t, List.mem_filter.mpr ⟨ht, hexp⟩, by simp⟩
      have h4 := hmem.2
      rw [hany] at h4
      simp at h4
  · intro t ht hnot
    have hexp : taskExpired now maxAgeHours t = false := by
      rw [taskExpired]
      cases hst : t.startTime with
      | none => rfl
      | some s => simp [hnot s hst]
    exact List.mem_filter.mpr ⟨ht, by rw [hexp]; rfl⟩
  · exact filter_length_split (taskExpired now maxAgeHours) tasks

/-- C9 witness: one stale completed task and one fresh pending task. -/
theorem C9_cleanup_old_tasks_witness :
    CleanupCorrect 10000 1 [⟨1, TaskStatus.completed, some 1, 7⟩,
      ⟨2, TaskStatus.pending, some 9999, 8⟩] [7, 8] :=
  C9_cleanup_old_tasks 10000 1 _ _ (by decide)

/- ============================================================
   Claim C10
   ============================================================ -/

/-- C10: a writer built for an odd frame height or width stores a
negotiated size rounded up to the next even value, so the stored size
differs from the requested one and write_frame rejects every frame of
the original odd dimensions. -/
theorem C10_odd_frames_rejected (h w : ℕ) (hodd : h % 2 = 1 ∨ w % 2 = 1) :
    OddSizeRejected h w := by
  unfold OddSizeRejected
  have hfs : (createFFmpegWriter h w).framesize = (adjustEven h, adjustEven w) := rfl
  have hmis : h ≠ (createFFmpegWriter h w).framesize.1 ∨
      w ≠ (createFFmpegWriter h w).framesize.2 := by
    rw [hfs]
    rcases hodd with ho | ho
    · exact Or.inl (by rw [adjustEven_odd h ho]; omega)
    · exact Or.inr (by rw [adjustEven_odd w ho]; omega)
  refine ⟨?_, ?_, ?_, "frame size mismatch", ?_⟩
  · intro hc
    rw [hfs] at hc
    rcases hodd with ho | ho
    · have h5 := congrArg Prod.fst hc
      rw [adjustEven_odd h ho] at h5
      simp at h5
    · have h5 := congrArg Prod.snd hc
      rw [adjustEven_odd w ho] at h5
      simp at h5
  · intro ho
    rw [hfs, adjustEven_odd h ho]
  · intro ho
    rw [hfs, adjustEven_odd w ho]
  · exact write_frame_mismatch _ h w rfl rfl hmis

/-- C10 witness: a 3 by 4 frame. -/
theorem C10_odd_frames_rejected_witness : OddSizeRejected 3 4 :=
  C10_odd_frames_rejected 3 4 (Or.inl (by decide))

/- ============================================================
   Claim C2
   ============================================================ -/

/-- C2: when both ends of an accepted edge lie in two different person
records, the records are merged only if their occupied part slots are
disjoint, the merged record takes each part slot from exactly one of
the two sources, and a non-disjoint pair instead extends the first
record. -/
theorem C2_merge_disjoint_only (candScore : ℚ → ℚ) (k indexA indexB : ℕ)
    (c : Connection) (subset : List Person) (j1 j2 : ℕ)
    (hm : findMatches subset indexA indexB c.aId c.bId = [j1, j2])
    (hv1 : validSlots (subset.getD j1 default).slots = true)
    (hv2 : validSlots (subset.getD j2 default).slots = true)
    (hl1 : (subset.getD j1 default).slots.length = 18)
    (hl2 : (subset.getD j2 default).slots.length = 18) :
    MergeBranchSound candScore k indexA indexB c subset j1 j2 := by
  unfold MergeBranchSound
  constructor
  · intro hdis
    unfold assemblyStep
    rw [hm]
    simp only [hdis, Bool.false_eq_true, if_false]
  · intro hdis
    constructor
    · unfold assemblyStep
      rw [hm]
      simp only [hdis, if_true]
    · intro idx hidx
      have hb1 : idx < (subset.getD j1 default).slots.length := by rw [hl1]; omega
      have hb2 : idx < (subset.getD j2 default).slots.length := by rw [hl2]; omega
      have hz : idx <
          (List.zipWith (fun a b => a + b + 1) (subset.getD j1 default).slots
            (subset.getD j2 default).slots).length := by
        rw [List.length_zipWith, hl1, hl2]
        omega
      rw [mergePerson]
      rw [List.getD_eq_getElem _ _ hz, List.getElem_zipWith,
        List.getD_eq_getElem _ _ hb1, List.getD_eq_getElem _ _ hb2]
      have hv1i : (subset.getD j1 default).slots[idx] = -1 ∨
          0 ≤ (subset.getD j1 default).slots[idx] := by
        have h6 := List.all_eq_true.mp hv1 _ (List.getElem_mem hb1)
        simpa using h6
      have hv2i : (subset.getD j2 default).slots[idx] = -1 ∨
          0 ≤ (subset.getD j2 default).slots[idx] := by
        have h6 := List.all_eq_true.mp hv2 _ (List.getElem_mem hb2)
        simpa using h6
      have hzz : idx < ((subset.getD j1 default).slots.zip
          (subset.getD j2 default).slots).length := by
        rw [List.length_zip, hl1, hl2]
        omega
      have hmem : ((subset.getD j1 default).slots[idx],
          (subset.getD j2 default).slots[idx]) ∈
          (subset.getD j1 default).slots.zip (subset.getD j2 default).slots := by
        have h7 := List.getElem_mem hzz
        rwa [List.getElem_zip] at h7
      have hnotboth : (subset.getD j1 default).slots[idx] < 0 ∨
          (subset.getD j2 default).slots[idx] < 0 := by
        have h8 := List.all_eq_true.mp hdis _ hmem
        simpa using h8
      by_cases hc1 : 0 ≤ (subset.getD j1 default).slots[idx]
      · rw [if_pos hc1]
        have h9 : (subset.getD j2 default).slots[idx] = -1 := by
          rcases hv2i with h | h
          · exact h
          · rcases hnotboth with h10 | h10
            · exact absurd hc1 (not_le.mpr h10)
            · exact absurd h (not_le.mpr h10)
        rw [h9]
        ring
      · rw [if_neg hc1]
        have h9 : (subset.getD j1 default).slots[idx] = -1 := by
          rcases hv1i with h | h
          · exact h
          · exact absurd h hc1
        rw [h9]
        ring

/-- C2 witness: two records occupying disjoint slots 0 and 1. -/
theorem C2_merge_disjoint_only_witness :
    MergeBranchSound (fun _ => 1) 2 0 1 ⟨10, 11, 2, 0, 0⟩
      [⟨10 :: List.replicate 17 (-1), 1, 2⟩,
       ⟨(-1) :: 11 :: List.replicate 16 (-1), 1, 2⟩] 0 1 :=
  C2_merge_disjoint_only (fun _ => 1) 2 0 1 ⟨10, 11, 2, 0, 0⟩ _ 0 1
    (by decide) (by decide) (by decide) (by decide) (by decide)

/- ============================================================
   Claim C5
   ============================================================ -/

/-- C5 counterexample: the single matched record holds peak id 5 in
the target slot, which is occupied (not -1) and different from the
incoming partB id 11; the claim demands the record stay unchanged, but
the code overwrites the slot with 11 and increments the part count
from 2 to 3. -/
theorem C5_overwrite_counterexample :
    ((([⟨10 :: 5 :: List.replicate 16 (-1), 1, 2⟩] :
        List Person).getD 0 default).slots.getD 1 (-1) = 5) ∧
    ((5 : ℚ) ≠ -1) ∧ ((5 : ℚ) ≠ 11) ∧
    ((assemblyStep (fun _ => 1) 0 0 1 ⟨10, 11, 2, 0, 0⟩
        [⟨10 :: 5 :: List.replicate 16 (-1), 1, 2⟩]).getD 0 default).count = 3 ∧
    ((assemblyStep (fun _ => 1) 0 0 1 ⟨10, 11, 2, 0, 0⟩
        [⟨10 :: 5 :: List.replicate 16 (-1), 1, 2⟩]).getD 0
          default).slots.getD 1 (-1) = 11 := by
  have hm : findMatches [⟨10 :: 5 :: List.replicate 16 (-1), 1, 2⟩] 0 1 10 11 =
      [0] := by decide
  have h1 : assemblyStep (fun _ => 1) 0 0 1 ⟨10, 11, 2, 0, 0⟩
      [⟨10 :: 5 :: List.replicate 16 (-1), 1, 2⟩] =
      if (([⟨10 :: 5 :: List.replicate 16 (-1), 1, 2⟩] :
            List Person).getD 0 default).slots.getD 1 (-1) ≠ (11 : ℚ) then
        ([⟨10 :: 5 :: List.replicate 16 (-1), 1, 2⟩] : List Person).set 0
          (extendPerson (fun _ => 1) 1 11 2
            (([⟨10 :: 5 :: List.replicate 16 (-1), 1, 2⟩] : List Person).getD 0 default))
      else [⟨10 :: 5 :: List.replicate 16 (-1), 1, 2⟩] := by
    unfold assemblyStep
    rw [hm]
  have hstep : assemblyStep (fun _ => 1) 0 0 1 ⟨10, 11, 2, 0, 0⟩
      [⟨10 :: 5 :: List.replicate 16 (-1), 1, 2⟩] =
      [extendPerson (fun _ => 1) 1 11 2 ⟨10 :: 5 :: List.replicate 16 (-1), 1, 2⟩] := by
    rw [h1, if_pos (by decide)]
    rfl
  refine ⟨by decide, by decide, by decide, ?_, ?_⟩
  · rw [hstep]
    show (2 : ℚ) + 1 = 3
    norm_num
  · rw [hstep]
    decide

/-- C5 amended: a single-match edge extends the record (fills the
partB slot, increments the count, adds edge score plus partB
confidence) exactly when the partB slot does not already hold the same
partB id; the slot is overwritten even when it held a different peak
id, and nothing changes only when the slot already holds that id. -/
theorem C5_single_match_extension (candScore : ℚ → ℚ) (k indexA indexB : ℕ)
    (c : Connection) (subset : List Person) (j : ℕ)
    (hm : findMatches subset indexA indexB c.aId c.bId = [j]) :
    SingleMatchStep candScore k indexA indexB c subset j := by
  have h1 : assemblyStep candScore k indexA indexB c subset =
      if (subset.getD j default).slots.getD indexB (-1) ≠ c.bId then
        subset.set j (extendPerson candScore indexB c.bId c.score (subset.getD j default))
      else subset := by
    unfold assemblyStep
    rw [hm]
  unfold SingleMatchStep
  constructor
  · intro hne
    rw [h1, if_pos hne]
  · intro heq
    rw [h1, if_neg (not_not_intro heq)]

/-- C5 witness: a concrete one-record table matched through its partA
slot. -/
theorem C5_single_match_extension_witness :
    SingleMatchStep (fun _ => 1) 0 0 1 ⟨10, 11, 2, 0, 0⟩
      [⟨10 :: 5 :: List.replicate 16 (-1), 1, 2⟩] 0 :=
  C5_single_match_extension (fun _ => 1) 0 0 1 ⟨10, 11, 2, 0, 0⟩ _ 0 (by decide)

/- ============================================================
   Claim C6
   ============================================================ -/

/-- C6: for a hand heatmap channel, a smoothed maximum not exceeding
0.05 yields the placeholder (0, 0); a maximum above 0.05 attained at a
unique position yields exactly that position as (x, y). -/
theorem C6_hand_peak_threshold (m : List (List ℚ)) (y x : ℕ) :
    HandPeakCorrect m y x := by
  unfold HandPeakCorrect
  constructor
  · intro hle
    simp only [handPeakOf]
    rw [if_pos hle]
  · intro hgt hy hx hval huniq
    have hy2 : m.getD y [] = m[y] := List.getD_eq_getElem m [] hy
    have hx2 : x < m[y].length := by rw [← hy2]; exact hx
    have hval2 : m[y][x] = matMax m := by
      rw [← List.getD_eq_getElem m[y] 0 hx2, ← hy2]
      exact hval
    have hrowIdx : (m.findIdx fun row => row.any fun q => q == matMax m) = y := by
      rw [List.findIdx_eq hy]
      constructor
      · rw [List.any_eq_true]
        exact ⟨m[y][x], List.getElem_mem hx2, by simp [hval2]⟩
      · intro j hj
        by_contra hne
        rw [Bool.not_eq_false, List.any_eq_true] at hne
        obtain ⟨q, hqmem, hqeq⟩ := hne
        have hj2 : j < m.length := lt_trans hj hy
        obtain ⟨x2, hx2b, hq⟩ := List.mem_iff_getElem.mp hqmem
        rw [beq_iff_eq] at hqeq
        have h3 := huniq j hj2 x2
          (by rw [List.getD_eq_getElem m [] hj2]; exact hx2b)
          (by rw [List.getD_eq_getElem m [] hj2,
                List.getD_eq_getElem m[j] 0 hx2b, hq]; exact hqeq)
        omega
    have hcolIdx : ((m.getD y []).findIdx fun q => q == matMax m) = x := by
      rw [hy2, List.findIdx_eq hx2]
      constructor
      · simp [hval2]
      · intro j hj
        by_contra hne
        rw [Bool.not_eq_false, beq_iff_eq] at hne
        have h3 := huniq y hy j
          (by rw [List.getD_eq_getElem m [] hy]; exact lt_trans hj hx2)
          (by rw [List.getD_eq_getElem m [] hy,
                List.getD_eq_getElem m[y] 0 (lt_trans hj hx2)]; exact hne)
        omega
    simp only [handPeakOf]
    rw [if_neg (not_le.mpr hgt), hrowIdx, hcolIdx]

/-- C6 witness: a 2 by 2 channel whose unique maximum 1 sits at
row 0, column 1. -/
theorem C6_hand_peak_threshold_witness :
    HandPeakCorrect [[0, 1], [0, 0]] 0 1 :=
  C6_hand_peak_threshold [[0, 1], [0, 0]] 0 1

/- ============================================================
   Claim C3
   ============================================================ -/

theorem sortCandidates_sorted (l : List (LimbCandidate ℚ)) :
    (sortCandidates l).Pairwise fun a b => b.score ≤ a.score := by
  have h1 := @List.sorted_mergeSort (LimbCandidate ℚ)
    (fun a b => decide (b.score ≤ a.score))
    (fun a b c hab hbc => by
      rw [decide_eq_true_eq] at hab hbc ⊢
      exact le_trans hbc hab)
    (fun a b => by
      rcases le_total a.score b.score with h | h <;> simp [h])
    l
  rw [sortCandidates]
  exact h1.imp fun h => of_decide_eq_true h

theorem greedyPick_shape (candA candB : List BPeak) (cap : ℕ) :
    ∀ (cands : List (LimbCandidate ℚ)) (acc : List Connection),
    ∃ sub : List (LimbCandidate ℚ), sub.Sublist cands ∧
      greedyPick candA candB cap cands acc =
        acc ++ sub.map (mkConnection candA candB) := by
  intro cands
  induction cands with
  | nil =>
      intro acc
      exact ⟨[], List.Sublist.refl [], by simp [greedyPick]⟩
  | cons c rest ih =>
      intro acc
      simp only [greedyPick]
      by_cases hg : (acc.all (fun r => r.i ≠ c.i) && acc.all (fun r => r.j ≠ c.j)) = true
      · rw [if_pos hg]
        by_cases hstop : cap ≤ (acc ++ [mkConnection candA candB c]).length
        · rw [if_pos hstop]
          exact ⟨[c], (List.nil_sublist rest).cons₂ c, by simp⟩
        · rw [if_neg hstop]
          obtain ⟨sub2, hs2, he2⟩ := ih (acc ++ [mkConnection candA candB c])
          exact ⟨c :: sub2, hs2.cons₂ c, by rw [he2]; simp⟩
      · rw [if_neg hg]
        obtain ⟨sub2, hs2, he2⟩ := ih acc
        exact ⟨sub2, hs2.cons c, he2⟩

theorem greedyPick_pairwise (candA candB : List BPeak) (cap : ℕ) :
    ∀ (cands : List (LimbCandidate ℚ)) (acc : List Connection),
    acc.Pairwise (fun r s => r.i ≠ s.i ∧ r.j ≠ s.j) →
    (greedyPick candA candB cap cands acc).Pairwise
      (fun r s => r.i ≠ s.i ∧ r.j ≠ s.j) := by
  intro cands
  induction cands with
  | nil =>
      intro acc hacc
      simpa [greedyPick] using hacc
  | cons c rest ih =>
      intro acc hacc
      simp only [greedyPick]
      by_cases hg : (acc.all (fun r => r.i ≠ c.i) && acc.all (fun r => r.j ≠ c.j)) = true
      · rw [if_pos hg]
        rw [Bool.and_eq_true] at hg
        have hacc2 : (acc ++ [mkConnection candA candB c]).Pairwise
            (fun r s => r.i ≠ s.i ∧ r.j ≠ s.j) := by
          rw [List.pairwise_append]
          refine ⟨hacc, List.pairwise_singleton _ _, ?_⟩
          intro r hr b hb
          rw [List.mem_singleton] at hb
          subst hb
          constructor
          · have h3 := List.all_eq_true.mp hg.1 r hr
            simpa [mkConnection] using h3
          · have h3 := List.all_eq_true.mp hg.2 r hr
            simpa [mkConnection] using h3
        by_cases hstop : cap ≤ (acc ++ [mkConnection candA candB c]).length
        · rw [if_pos hstop]
          exact hacc2
        · rw [if_neg hstop]
          exact ih _ hacc2
      · rw [if_neg hg]
        exact ih _ hacc

theorem greedyPick_length (candA candB : List BPeak) (cap : ℕ) :
    ∀ (cands : List (LimbCandidate ℚ)) (acc : List Connection),
    acc.length < cap → (greedyPick candA candB cap cands acc).length ≤ cap := by
  intro cands
  induction cands with
  | nil =>
      intro acc hlt
      simpa [greedyPick] using le_of_lt hlt
  | cons c rest ih =>
      intro acc hlt
      simp only [greedyPick]
      by_cases hg : (acc.all (fun r => r.i ≠ c.i) && acc.all (fun r => r.j ≠ c.j)) = true
      · rw [if_pos hg]
        have hlen : (acc ++ [mkConnection candA candB c]).length = acc.length + 1 := by
          simp
        by_cases hstop : cap ≤ (acc ++ [mkConnection candA candB c]).length
        · rw [if_pos hstop, hlen]
          omega
        · rw [if_neg hstop]
          exact ih _ (by omega)
      · rw [if_neg hg]
        exact ih _ hlt

theorem nodup_map_getD_inj (l : List BPeak) (hnd : (l.map BPeak.gid).Nodup)
    (i1 i2 : ℕ) (h1 : i1 < l.length) (h2 : i2 < l.length)
    (heq : (l.getD i1 default).gid = (l.getD i2 default).gid) : i1 = i2 := by
  rw [List.getD_eq_getElem _ _ h1, List.getD_eq_getElem _ _ h2] at heq
  have hm1 : i1 < (l.map BPeak.gid).length := by simpa using h1
  have hm2 : i2 < (l.map BPeak.gid).length := by simpa using h2
  have hinj := List.nodup_iff_injective_get.mp hnd
  have h3 : (l.map BPeak.gid).get ⟨i1, hm1⟩ = (l.map BPeak.gid).get ⟨i2, hm2⟩ := by
    simp only [List.get_eq_getElem, List.getElem_map]
    exact heq
  have h4 := hinj h3
  simpa using h4

/-- C3: within one limb sequence pass, the selected edges form a
strict one-to-one matching (no shared local index and no shared peak
id on either end), they are taken in descending score order, and at
most `min(|candA|, |candB|)` edges are selected. -/
theorem C3_greedy_one_to_one (candA candB : List BPeak)
    (cands : List (LimbCandidate ℚ)) (hA : candA ≠ []) (hB : candB ≠ [])
    (hbound : ∀ c ∈ cands, c.i < candA.length ∧ c.j < candB.length)
    (hAid : (candA.map BPeak.gid).Nodup) (hBid : (candB.map BPeak.gid).Nodup) :
    OneToOneMatching candA candB cands := by
  obtain ⟨sub, hsub, hout⟩ := greedyPick_shape candA candB
    (min candA.length candB.length) (sortCandidates cands) []
  have hout2 : limbConnections candA candB cands =
      sub.map (mkConnection candA candB) := by
    unfold limbConnections
    rw [hout]
    simp
  have hsubmem : ∀ c ∈ sub, c.i < candA.length ∧ c.j < candB.length := by
    intro c hc
    exact hbound c ((List.mergeSort_perm cands _).mem_iff.mp (hsub.mem hc))
  unfold OneToOneMatching
  refine ⟨?_, ?_, ?_⟩
  · have hpw : (limbConnections candA candB cands).Pairwise
        (fun r s => r.i ≠ s.i ∧ r.j ≠ s.j) := by
      unfold limbConnections
      exact greedyPick_pairwise _ _ _ _ [] List.Pairwise.nil
    have hmemP : ∀ r ∈ limbConnections candA candB cands,
        r.i < candA.length ∧ r.j < candB.length ∧
        r.aId = (candA.getD r.i default).gid ∧
        r.bId = (candB.getD r.j default).gid := by
      intro r hr
      rw [hout2, List.mem_map] at hr
      obtain ⟨c, hc, hrc⟩ := hr
      subst hrc
      obtain ⟨h1, h2⟩ := hsubmem c hc
      exact ⟨h1, h2, rfl, rfl⟩
    rw [List.pairwise_iff_getElem] at hpw ⊢
    intro a b ha hb hab
    obtain ⟨hne1, hne2⟩ := hpw a b ha hb hab
    obtain ⟨hia, hja, haida, hbida⟩ := hmemP _ (List.getElem_mem ha)
    obtain ⟨hib, hjb, haidb, hbidb⟩ := hmemP _ (List.getElem_mem hb)
    refine ⟨hne1, hne2, ?_, ?_⟩
    · rw [haida, haidb]
      intro heq
      exact hne1 (nodup_map_getD_inj candA hAid _ _ hia hib heq)
    · rw [hbida, hbidb]
      intro heq
      exact hne2 (nodup_map_getD_inj candB hBid _ _ hja hjb heq)
  · have hsorted := sortCandidates_sorted cands
    have hsubsort : sub.Pairwise (fun a b => b.score ≤ a.score) :=
      List.Pairwise.sublist hsub hsorted
    rw [hout2, List.pairwise_map]
    exact hsubsort.imp fun h => h
  · have hcap : 0 < min candA.length candB.length :=
      lt_min (List.length_pos.mpr hA) (List.length_pos.mpr hB)
    unfold limbConnections
    exact greedyPick_length _ _ _ _ [] (by simpa using hcap)

/-- C3 witness: two partA peaks, one partB peak, two candidate
pairs. -/
theorem C3_greedy_one_to_one_witness :
    OneToOneMatching [⟨0, 0, 1, 0⟩, ⟨5, 5, 1, 1⟩] [⟨1, 1, 1, 2⟩]
      [⟨0, 0, 3, 4⟩, ⟨1, 0, 2, 3⟩] :=
  C3_greedy_one_to_one _ _ _ (by decide) (by decide) (by decide)
    (by decide) (by decide)

/- ============================================================
   Claim C4
   ============================================================ -/

theorem roundHalfEven_intCast (z : ℤ) : roundHalfEven (z : ℚ) = z := by
  norm_num [roundHalfEven, Rat.mkRat_eq_div, Int.floor_intCast]

theorem sampleCoords_eval :
    sampleCoords (0, 0) (0, 9) =
      (List.range 10).map fun t : ℕ => ((0 : ℤ), ((t : ℕ) : ℤ)) := by
  rw [sampleCoords, linspace, linspace, List.zip_map', List.map_map]
  apply List.map_congr_left
  intro t ht
  simp only [Function.comp]
  push_cast
  rw [show (0 : ℚ) + (0 - 0) * (t : ℚ) / (10 - 1) = ((0 : ℤ) : ℚ) by
    push_cast; ring]
  rw [show (0 : ℚ) + (9 - 0) * (t : ℚ) / (10 - 1) = ((t : ℤ) : ℚ) by
    push_cast; field_simp; ring]
  rw [roundHalfEven_intCast, roundHalfEven_intCast]

theorem pairNorm_eval : pairNorm (0, 0) (0, 9) = 9 := by
  have h1 : Real.sqrt 81 = 9 := by
    rw [show (81 : ℝ) = 9 ^ 2 by norm_num, Real.sqrt_sq (by norm_num : (0:ℝ) ≤ 9)]
  rw [pairNorm]
  norm_num [h1]

theorem scoreMidpt_eval (t : ℤ) :
    scoreMidpt pafCex (0, 0) (0, 9) ((0 : ℤ), t) = ((pafCex.py t 0 : ℚ) : ℝ) := by
  rw [scoreMidpt, pairNorm_eval]
  norm_num [pafCex]

theorem scoreList_eval :
    (sampleCoords (0, 0) (0, 9)).map (scoreMidpt pafCex (0, 0) (0, 9)) =
      (List.range 10).map fun t : ℕ => ((pafCex.py ((t : ℕ) : ℤ) 0 : ℚ) : ℝ) := by
  rw [sampleCoords_eval, List.map_map]
  apply List.map_congr_left
  intro t ht
  simp only [Function.comp]
  exact scoreMidpt_eval t

theorem numPassing_eval : numPassing pafCex (0, 0) (0, 9) = 8 := by
  rw [numPassing, scoreList_eval]
  rw [show List.range 10 = [0, 1, 2, 3, 4, 5, 6, 7, 8, 9] from rfl]
  simp only [List.map_cons, List.map_nil, List.countP_cons, List.countP_nil,
    decide_eq_true_eq]
  norm_num [pafCex, Rat.mkRat_eq_div]

theorem swdp_eval : scoreWithDistPrior pafCex (0, 0) (0, 9) 100 = 7 / 125 := by
  rw [scoreWithDistPrior, scoreList_eval, pairNorm_eval]
  rw [show List.range 10 = [0, 1, 2, 3, 4, 5, 6, 7, 8, 9] from rfl]
  simp only [List.map_cons, List.map_nil, List.sum_cons, List.sum_nil]
  rw [show min ((1 / 2 : ℝ) * (100 : ℕ) / 9 - 1) 0 = 0 from
    min_eq_right (by norm_num)]
  norm_num [pafCex, Rat.mkRat_eq_div]

/-- C4 counterexample: a pair for which exactly 8 of the 10 sampled
projections exceed 0.05 and the score with distance prior is positive.
The claim (at least 80% of the samples, i.e. at least 8 of 10) demands
acceptance, but the strict comparison `count > 0.8 * 10` of the code
rejects the pair. -/
theorem C4_eighty_percent_counterexample :
    8 ≤ numPassing pafCex (0, 0) (0, 9) ∧
    0 < scoreWithDistPrior pafCex (0, 0) (0, 9) 100 ∧
    ¬ pairAccepted pafCex (0, 0) (0, 9) 100 := by
  refine ⟨by rw [numPassing_eval], by rw [swdp_eval]; norm_num, ?_⟩
  rintro ⟨h1, h2⟩
  rw [numPassing_eval] at h1
  norm_num at h1

/-- C4 amended: a peak pair is accepted as a connection candidate if
and only if strictly more than 80% of the 10 sampled projections (that
is, at least 9 of 10) exceed threshold 0.05 and the score with
distance prior is positive; the candidate list contains exactly the
accepted pairs with their prior and combined scores. -/
theorem C4_acceptance_characterization (paf : PafSlice) (A B : ℤ × ℤ) (H : ℕ)
    (candA candB : List BPeak) (lc : LimbCandidate ℝ) :
    (pairAccepted paf A B H ↔
      (9 ≤ numPassing paf A B ∧ 0 < scoreWithDistPrior paf A B H)) ∧
    (lc ∈ connectionCandidates paf candA candB H ↔
      ∃ i, i < candA.length ∧ ∃ j, j < candB.length ∧
        pairAccepted paf (peakPos (candA.getD i default))
          (peakPos (candB.getD j default)) H ∧
        lc = ⟨i, j,
          scoreWithDistPrior paf (peakPos (candA.getD i default))
            (peakPos (candB.getD j default)) H,
          scoreWithDistPrior paf (peakPos (candA.getD i default))
            (peakPos (candB.getD j default)) H +
            ((candA.getD i default).score : ℝ) +
            ((candB.getD j default).score : ℝ)⟩) := by
  constructor
  · unfold pairAccepted
    constructor
    · rintro ⟨h1, h2⟩
      refine ⟨?_, h2⟩
      have h3 : (8 : ℝ) < (numPassing paf A B : ℝ) := by
        calc (8 : ℝ) = 8 / 10 * 10 := by norm_num
        _ < _ := h1
      have h4 : 8 < numPassing paf A B := by exact_mod_cast h3
      omega
    · rintro ⟨h1, h2⟩
      refine ⟨?_, h2⟩
      have h3 : (8 : ℕ) < numPassing paf A B := by omega
      have h4 : (8 : ℝ) < (numPassing paf A B : ℝ) := by exact_mod_cast h3
      calc (8 / 10 : ℝ) * 10 = 8 := by norm_num
      _ < _ := h4
  · simp only [connectionCandidates]
    rw [List.mem_flatMap]
    constructor
    · rintro ⟨i, hi, hmem⟩
      rw [List.mem_range] at hi
      rw [List.mem_filterMap] at hmem
      obtain ⟨j, hj, heq⟩ := hmem
      rw [List.mem_range] at hj
      by_cases hacc : pairAccepted paf (peakPos (candA.getD i default))
          (peakPos (candB.getD j default)) H
      · rw [if_pos hacc] at heq
        exact ⟨i, hi, j, hj, hacc, (Option.some.inj heq).symm⟩
      · rw [if_neg hacc] at heq
        exact absurd heq (by simp)
    · rintro ⟨i, hi, j, hj, hacc, hlc⟩
      refine ⟨i, List.mem_range.mpr hi, ?_⟩
      rw [List.mem_filterMap]
      exact ⟨j, List.mem_range.mpr hj, by rw [if_pos hacc, hlc]⟩
